import Mathlib

/-!
Verification development for the EPG merge engine (`merge.py`).

The Python program is shallowly embedded below: strings are lists of
characters, the mutable `EPGGenerator` object becomes an explicit
`GenState` record threaded through the processing steps, `lxml` channel
and programme elements become the `Channel` / `Programme` records, and
Python exceptions become `Except` values.  Concurrency is modelled by
parameterising the processing fold over the order in which the per-feed
futures complete (`as_completed`), while the pre-fetch pass iterates in
declaration order, exactly as the source does.
-/

set_option maxRecDepth 4000

abbrev Str := List Char

/-- Python `s.startswith(p)` on character lists. -/
def startsWithL : Str → Str → Bool
  | [], _ => true
  | _ :: _, [] => false
  | p :: ps, c :: cs => p = c && startsWithL ps cs

/-- Python `sub in s` (substring test) on character lists. -/
def containsSub (sub : Str) : Str → Bool
  | [] => startsWithL sub []
  | c :: rest => startsWithL sub (c :: rest) || containsSub sub rest

/-- Python `s.strip()`: remove leading and trailing whitespace. -/
def stripWs (s : Str) : Str :=
  ((s.dropWhile Char.isWhitespace).reverse.dropWhile Char.isWhitespace).reverse

/-- Python `s.isdigit()` (restricted to ASCII digits, which is what the
feeds use): nonempty and all digits. -/
def isdigitL (s : Str) : Bool :=
  (decide (s ≠ [])) && s.all Char.isDigit

/-- Python `s.upper()` (ASCII case mapping). -/
def upperA (s : Str) : Str := s.map Char.toUpper

/-- Python `s.split(' ')`: split on every single space, keeping empties. -/
def splitSp : Str → List Str
  | [] => [[]]
  | c :: rest =>
    if c = ' ' then [] :: splitSp rest
    else
      match splitSp rest with
      | [] => [[c]]
      | p :: ps => (c :: p) :: ps

/-- Python `dict` lookup modelled on an association list (first match). -/
def lookupA (m : List (Str × Str)) (k : Str) : Option Str :=
  match m with
  | [] => none
  | (k2, v) :: rest => if k2 = k then some v else lookupA rest k

/-- Python `dict` assignment: replace the value of an existing key,
otherwise append a new binding. -/
def setA (m : List (Str × Str)) (k v : Str) : List (Str × Str) :=
  match m with
  | [] => [(k, v)]
  | (k2, v2) :: rest => if k2 = k then (k2, v) :: rest else (k2, v2) :: setA rest k v

/-- Character class kept by `re.sub(r'[^一-鿿0-9a-zA-Z]', '', name)`:
CJK unified ideographs, ASCII digits and ASCII letters. -/
def keepChar (c : Char) : Bool :=
  (decide (0x4e00 ≤ c.toNat) && decide (c.toNat ≤ 0x9fff)) ||
  (decide (0x30 ≤ c.toNat) && decide (c.toNat ≤ 0x39)) ||
  (decide (0x41 ≤ c.toNat) && decide (c.toNat ≤ 0x5a)) ||
  (decide (0x61 ≤ c.toNat) && decide (c.toNat ≤ 0x7a))

/-- Python `s.replace(old, new)`: replace all non-overlapping occurrences
left to right.  Fueled recursion; fuel `s.length` always suffices because
each step consumes at least one character. -/
def replaceFuel (old new : Str) : Nat → Str → Str
  | _, [] => []
  | 0, s => s
  | fuel + 1, c :: rest =>
    if (decide (old ≠ [])) && startsWithL old (c :: rest) then
      new ++ replaceFuel old new fuel (List.drop old.length (c :: rest))
    else
      c :: replaceFuel old new fuel rest

def replaceAll (old new s : Str) : Str := replaceFuel old new s.length s

/-- `re.sub(r'^IHOT|^IPTV', '', name)`: the pattern is anchored, so at most
one leading tag is removed. -/
def stripLeadTag (s : Str) : Str :=
  if startsWithL ("IHOT".toList) s then s.drop 4
  else if startsWithL ("IPTV".toList) s then s.drop 4
  else s

/-- `EPGGenerator.normalize_channel_name` (merge.py lines 138-143):
drop characters outside CJK/alnum, rewrite `new` to `NEW` and `newtv` to
`NEWTV`, strip a leading `IHOT`/`IPTV` tag, then strip whitespace. -/
def normalize_channel_name (name : Str) : Str :=
  let n1 := name.filter keepChar
  let n2 := replaceAll ("new".toList) ("NEW".toList) n1
  let n3 := replaceAll ("newtv".toList) ("NEWTV".toList) n2
  stripWs (stripLeadTag n3)

/-- Foreign-channel keyword blacklist (merge.py lines 43-48). -/
def FOREIGN_KEYWORDS : List Str :=
  [("BBC".toList), ("CNN".toList), ("NBC".toList), ("FOX".toList),
   ("HBO".toList), ("Netflix".toList), ("Disney".toList),
   ("欧美".toList), ("美国".toList), ("英国".toList), ("法国".toList),
   ("德国".toList), ("日本".toList), ("韩国".toList),
   ("泰国".toList), ("越南".toList), ("印尼".toList), ("马来西亚".toList),
   ("新加坡".toList), ("澳洲".toList),
   ("欧洲".toList), ("美洲".toList), ("非洲".toList), ("俄罗斯".toList),
   ("印度".toList), ("巴西".toList)]

/-- Domestic special-channel keywords (merge.py line 51). -/
def DOMESTIC_SPECIAL : List Str :=
  [("popc".toList), ("爱".toList), ("淘".toList), ("new".toList),
   ("NEW".toList), ("POPC".toList), ("超级电影".toList), ("IPTV".toList),
   ("new系列".toList), ("NewTV".toList)]

/-- Manual id mapping (merge.py lines 34-40). -/
def COOL9_ID_MAPPING : List (Str × Str) :=
  [(("89".toList), ("山东卫视".toList)), (("221".toList), ("山东教育".toList)),
   (("381".toList), ("山东新闻".toList)), (("382".toList), ("山东农科".toList)),
   (("383".toList), ("山东齐鲁".toList)), (("384".toList), ("山东文旅".toList)),
   (("1".toList), ("CCTV1".toList)), (("2".toList), ("CCTV2".toList)),
   (("3".toList), ("CCTV3".toList)), (("4".toList), ("CCTV4".toList)),
   (("5".toList), ("CCTV5".toList)), (("6".toList), ("CCTV6".toList)),
   (("7".toList), ("CCTV7".toList)), (("8".toList), ("CCTV8".toList)),
   (("9".toList), ("CCTV9".toList)), (("10".toList), ("CCTV10".toList))]

/-! ### Proleptic Gregorian calendar, as used by Python `datetime` -/

def isLeap (y : Nat) : Bool :=
  (decide (y % 4 = 0) && decide (y % 100 ≠ 0)) || decide (y % 400 = 0)

def monthLen (y m : Nat) : Nat :=
  if m = 2 then (if isLeap y then 29 else 28)
  else if m = 4 ∨ m = 6 ∨ m = 9 ∨ m = 11 then 30
  else 31

def daysBeforeYear (y : Nat) : Nat :=
  (y - 1) * 365 + (y - 1) / 4 - (y - 1) / 100 + (y - 1) / 400

def daysBeforeMonth (y : Nat) : Nat → Nat
  | 0 => 0
  | 1 => 0
  | m + 1 => daysBeforeMonth y m + monthLen y m

/-- `datetime.toordinal`: 0001-01-01 has ordinal 1. -/
def toOrdinal (y m d : Nat) : Nat :=
  daysBeforeYear y + daysBeforeMonth y m + d

/-- Inverse of `toOrdinal` (civil-from-days algorithm). -/
def civilFromDays (ordinal : Nat) : Nat × Nat × Nat :=
  let z := ordinal + 305
  let era := z / 146097
  let doe := z % 146097
  let yoe := (doe - doe / 1460 + doe / 36524 - doe / 146096) / 365
  let y1 := era * 400 + yoe
  let doy := doe - (365 * yoe + yoe / 4 - yoe / 100)
  let mp := (5 * doy + 2) / 153
  let d := doy - (153 * mp + 2) / 5 + 1
  let m := if mp < 10 then mp + 3 else mp - 9
  (if m ≤ 2 then y1 + 1 else y1, m, d)

/-- A `datetime.datetime` value (second precision, naive). -/
structure Dt where
  year : Nat
  month : Nat
  day : Nat
  hour : Nat
  minute : Nat
  second : Nat
deriving DecidableEq, Repr

/-- Seconds since 0001-01-01 00:00:00. -/
def dtSecs (dt : Dt) : Nat :=
  (toOrdinal dt.year dt.month dt.day - 1) * 86400 +
    dt.hour * 3600 + dt.minute * 60 + dt.second

def dtOfSecs (n : Nat) : Dt :=
  let days := n / 86400
  let rem := n % 86400
  let ymd := civilFromDays (days + 1)
  ⟨ymd.1, ymd.2.1, ymd.2.2, rem / 3600, rem % 3600 / 60, rem % 60⟩

/-- Last representable second (`datetime.MAXYEAR` is 9999). -/
def maxSecs : Nat := dtSecs ⟨9999, 12, 31, 23, 59, 59⟩

/-- `dt + timedelta(days=days, hours=hours)`; `none` models the
`OverflowError` raised when the result leaves `[MINYEAR, MAXYEAR]`. -/
def dtAddOpt (dt : Dt) (days hours : Int) : Option Dt :=
  let total : Int := (dtSecs dt : Int) + days * 86400 + hours * 3600
  if 0 ≤ total ∧ total ≤ (maxSecs : Int) then some (dtOfSecs total.toNat)
  else none

def digitVal (c : Char) : Nat := c.toNat - 48

def natOfDigits (s : Str) : Nat := s.foldl (fun a c => a * 10 + digitVal c) 0

/-- `datetime.strptime(s, "%Y%m%d%H%M%S")` on a 14-character slice:
all digits, with every field in its valid range (year ≥ 1 = `MINYEAR`). -/
def parse14 (s : Str) : Option Dt :=
  if s.length = 14 ∧ s.all Char.isDigit then
    let y := natOfDigits (s.take 4)
    let m := natOfDigits ((s.drop 4).take 2)
    let d := natOfDigits ((s.drop 6).take 2)
    let h := natOfDigits ((s.drop 8).take 2)
    let mi := natOfDigits ((s.drop 10).take 2)
    let se := natOfDigits ((s.drop 12).take 2)
    if 1 ≤ y ∧ 1 ≤ m ∧ m ≤ 12 ∧ 1 ≤ d ∧ d ≤ monthLen y m ∧
        h ≤ 23 ∧ mi ≤ 59 ∧ se ≤ 59 then
      some ⟨y, m, d, h, mi, se⟩
    else none
  else none

def digitChar (n : Nat) : Char := Char.ofNat (48 + n)

def pad2 (n : Nat) : Str := [digitChar (n / 10 % 10), digitChar (n % 10)]

def pad4 (n : Nat) : Str :=
  [digitChar (n / 1000 % 10), digitChar (n / 100 % 10),
   digitChar (n / 10 % 10), digitChar (n % 10)]

/-- `dt.strftime("%Y%m%d%H%M%S")`. -/
def render14 (dt : Dt) : Str :=
  pad4 dt.year ++ pad2 dt.month ++ pad2 dt.day ++
    pad2 dt.hour ++ pad2 dt.minute ++ pad2 dt.second

/-- One attribute of `EPGGenerator.adjust_program_time` (merge.py lines
263-283).  `Except.error` models the `ValueError` raised by the 2-tuple
unpacking of `time_str.split(' ')` when the string does not have exactly
one space; that line sits outside the `try` block, so it propagates.
Failures inside the `try` (unparsable digits, overflow) are caught and
leave the attribute unchanged. -/
def adjust_attr (days hours : Int) (time_str : Str) : Except Unit Str :=
  if time_str ≠ [] ∧ ' ' ∈ time_str then
    match splitSp time_str with
    | [time_part, tz] =>
      if 14 ≤ time_part.length then
        match parse14 (time_part.take 14) with
        | none => .ok time_str
        | some dt =>
          match dtAddOpt dt days hours with
          | none => .ok time_str
          | some dt2 => .ok (render14 dt2 ++ (' ' :: tz))
      else .ok time_str
    | _ => .error ()
  else .ok time_str

/-! ### Data model -/

/-- A `<channel>` element: `id` attribute and the text of its
`display-name` children. -/
structure Channel where
  id : Str
  displayNames : List Str
deriving DecidableEq, Repr

/-- A `<programme>` element: `channel`/`start`/`stop` attributes and a
`title` payload distinguishing elements. -/
structure Programme where
  channel : Str
  start : Str
  stop : Str
  title : Str
deriving DecidableEq, Repr

/-- One successfully fetched and parsed feed document. -/
structure Feed where
  channels : List Channel
  programmes : List Programme
deriving DecidableEq, Repr

/-- The mutable state of `EPGGenerator` (merge.py lines 57-61). -/
structure GenState where
  channel_ids : List Str
  all_channels : List Channel
  all_programs : List Programme
  name_to_final_id : List (Str × Str)
  program_channel_map : List (Str × Str)
deriving DecidableEq, Repr

def initState : GenState := ⟨[], [], [], [], []⟩

instance {ε α : Type} [DecidableEq ε] [DecidableEq α] : DecidableEq (Except ε α) :=
  fun a b =>
    match a, b with
    | .error x, .error y =>
      if h : x = y then .isTrue (congrArg Except.error h)
      else .isFalse (fun hh => h (Except.error.inj hh))
    | .ok x, .ok y =>
      if h : x = y then .isTrue (congrArg Except.ok h)
      else .isFalse (fun hh => h (Except.ok.inj hh))
    | .error _, .ok _ => .isFalse (fun hh => Except.noConfusion hh)
    | .ok _, .error _ => .isFalse (fun hh => Except.noConfusion hh)

/-- `EPGGenerator.adjust_program_time` over both `start` and `stop`;
an exception while adjusting `start` skips `stop` and propagates. -/
def adjust_program_time (days hours : Int) (p : Programme) : Except Unit Programme :=
  match adjust_attr days hours p.start with
  | .error _ => .error ()
  | .ok s2 =>
    match adjust_attr days hours p.stop with
    | .error _ => .error ()
    | .ok t2 => .ok { p with start := s2, stop := t2 }

/-- `EPGGenerator.get_channel_name_by_id` (merge.py lines 252-259): the
loop only returns on a matching channel that has a display name, else it
keeps scanning and finally returns the empty string. -/
def get_channel_name_by_id (chs : List Channel) (cid : Str) : Str :=
  match chs with
  | [] => []
  | ch :: rest =>
    if ch.id = cid then
      match ch.displayNames with
      | [] => get_channel_name_by_id rest cid
      | n :: _ => stripWs n
    else get_channel_name_by_id rest cid

/-- merge.py lines 211-237: compute `final_cid` for one channel.
`feedProgs` are the current tree's programmes, consulted by the xpath
fallback for the NEWTV family. -/
def resolveCid (feedProgs : List Programme) (st : GenState)
    (original_cid channel_name normalized_name : Str) : Str :=
  let fc1 :=
    match lookupA st.program_channel_map normalized_name with
    | some v => v
    | none =>
      if containsSub ("NEWTV".toList) normalized_name ||
          containsSub ("NEW".toList) normalized_name then
        match feedProgs.filter
            (fun p => containsSub (normalized_name.take 4) p.channel) with
        | [] => original_cid
        | p :: _ => stripWs p.channel
      else original_cid
  match lookupA st.name_to_final_id normalized_name with
  | some v => v
  | none =>
    let a :=
      match lookupA COOL9_ID_MAPPING original_cid with
      | some v => v
      | none =>
        match lookupA COOL9_ID_MAPPING channel_name with
        | some v => v
        | none => fc1
    if isdigitL a = false then
      match lookupA st.program_channel_map normalized_name with
      | some v => v
      | none => a
    else a

/-- Loop body of `EPGGenerator.process_channels` (merge.py lines 192-247).
Note: the source's domestic-keyword check (lines 207-208) is
`if any(...): pass` — a no-op — so it does not appear in the control flow;
the foreign-keyword `continue` (lines 205-206) always drops first. -/
def stepChannel (feedProgs : List Programme) (st : GenState) (ch : Channel) : GenState :=
  let original_cid := stripWs ch.id
  if original_cid = [] then st
  else
    let channel_name :=
      match ch.displayNames with
      | [] => original_cid
      | n :: _ => stripWs n
    let normalized_name := normalize_channel_name channel_name
    if normalized_name = [] then st
    else if FOREIGN_KEYWORDS.any (fun kw => containsSub kw channel_name) then st
    else
      let fc := resolveCid feedProgs st original_cid channel_name normalized_name
      if fc ∈ st.channel_ids ∨ fc = [] then st
      else
        { st with
          channel_ids := st.channel_ids ++ [fc],
          all_channels := st.all_channels ++ [{ ch with id := fc }],
          name_to_final_id := setA st.name_to_final_id normalized_name fc }

/-- `EPGGenerator.process_channels` (merge.py lines 187-250). -/
def process_channels (st : GenState) (f : Feed) : GenState :=
  f.channels.foldl (stepChannel f.programmes) st

/-- The retention guard of `process_programs` (merge.py line 295):
`prog_cid.isdigit() and prog_cid in self.channel_ids`. -/
def keepP (st : GenState) (p : Programme) : Bool :=
  isdigitL (stripWs p.channel) && decide (stripWs p.channel ∈ st.channel_ids)

/-- Hour delta chosen at merge.py lines 301-310: `+24` for the 爱 series
(name contains `爱`, or `iHOT` occurs in its uppercased form — the latter
can never fire), else `+8`. -/
def hoursFor (channel_name : Str) : Int :=
  if containsSub ("爱".toList) channel_name ||
      containsSub ("iHOT".toList) (upperA channel_name) then 24 else 8

/-- Loop body of `EPGGenerator.process_programs` (merge.py lines 292-313):
retained programmes get +24h (爱 series) or +8h applied, then are appended;
an uncaught `ValueError` from `adjust_program_time` aborts the loop. -/
def stepProgram (st : GenState) (p : Programme) : Except Unit GenState :=
  if keepP st p then
    let channel_name := get_channel_name_by_id st.all_channels (stripWs p.channel)
    if channel_name = [] then
      .ok { st with all_programs := st.all_programs ++ [p] }
    else
      match adjust_program_time 0 (hoursFor channel_name) p with
      | .error _ => .error ()
      | .ok p2 => .ok { st with all_programs := st.all_programs ++ [p2] }
  else .ok st

/-- `EPGGenerator.process_programs` (merge.py lines 285-317) as a loop;
the Bool records whether the loop finished without an exception. -/
def process_programs (st : GenState) : List Programme → GenState × Bool
  | [] => (st, true)
  | p :: rest =>
    match stepProgram st p with
    | .error _ => (st, false)
    | .ok st2 => process_programs st2 rest

/-- The transformation `process_programs` applies to a retained programme
(used to state what the loop appends). -/
def transP (st : GenState) (p : Programme) : Programme :=
  let channel_name := get_channel_name_by_id st.all_channels (stripWs p.channel)
  if channel_name = [] then p
  else
    match adjust_program_time 0 (hoursFor channel_name) p with
    | .error _ => p
    | .ok p2 => p2

/-- `channel_id_to_name` construction in `pre_fetch_program_channels`
(merge.py lines 166-171); later channels overwrite earlier ones. -/
def buildIdToName (chs : List Channel) : List (Str × Str) :=
  chs.foldl
    (fun m ch =>
      let cid := stripWs ch.id
      let nm :=
        match ch.displayNames with
        | [] => cid
        | n :: _ => stripWs n
      setA m cid nm)
    []

/-- One source of `pre_fetch_program_channels` (merge.py lines 173-180). -/
def preFetchOne (pcm : List (Str × Str)) (f : Feed) : List (Str × Str) :=
  let id2name := buildIdToName f.channels
  f.programmes.foldl
    (fun acc p =>
      let pcid := stripWs p.channel
      if isdigitL pcid && (lookupA id2name pcid).isSome then
        let chName :=
          match lookupA id2name pcid with
          | some v => v
          | none => []
        let nn := normalize_channel_name chName
        if (decide (nn ≠ [])) && (lookupA acc nn) = none then setA acc nn pcid
        else acc
      else acc)
    pcm

/-- `EPGGenerator.pre_fetch_program_channels` (merge.py lines 145-185):
iterates the sources in declaration order; a failed source (`none`)
contributes nothing. -/
def pre_fetch_program_channels (decl : List (Option Feed)) : List (Str × Str) :=
  decl.foldl
    (fun pcm of =>
      match of with
      | none => pcm
      | some f => preFetchOne pcm f)
    []

/-- The per-feed body of the `as_completed` loop (merge.py lines 334-338):
process channels, then programmes; the Bool records whether the feed was
processed to completion (counted in `successful_sources`). -/
def processFeed (st : GenState) (f : Feed) : GenState × Bool :=
  process_programs (process_channels st f) f.programmes

/-- The `as_completed` loop of `fetch_all_sources` (merge.py lines
325-341) over feed results in completion order; `none` is a failed
fetch/parse.  Returns the final state and `successful_sources`. -/
def fetchFold : GenState → List (Option Feed) → GenState × Nat
  | st, [] => (st, 0)
  | st, none :: rest => fetchFold st rest
  | st, some f :: rest =>
    let r := processFeed st f
    let r2 := fetchFold r.1 rest
    (r2.1, r2.2 + (if r.2 then 1 else 0))

/-- `EPGGenerator.fetch_all_sources` (merge.py lines 319-346): `false`
exactly when `successful_sources == 0`. -/
def fetch_all_sources (st : GenState) (comp : List (Option Feed)) : GenState × Bool :=
  let r := fetchFold st comp
  (r.1, if r.2 = 0 then false else true)

/-- The whole merge over one set of feed snapshots: `decl` is the feed
list in declaration order (used by the sequential pre-fetch pass), `comp`
the same results in the order the concurrent futures complete. -/
def runMerge (decl comp : List (Option Feed)) : GenState × Bool :=
  fetch_all_sources { initState with program_channel_map := pre_fetch_program_channels decl } comp

/-- Loop body of `read_epg_sources` (merge.py lines 90-96). -/
def lineStep (acc : List Str) (l : Str) : List Str :=
  let s := stripWs l
  if s ≠ [] ∧ ¬ startsWithL ("#".toList) s then
    if startsWithL ("http://".toList) s || startsWithL ("https://".toList) s then
      acc ++ [s]
    else acc
  else acc

/-- A valid source line in the sense of the spec: non-empty after
stripping, not a comment, and an http(s) URL. -/
def validURL (l : Str) : Option Str :=
  let s := stripWs l
  if s ≠ [] ∧ ¬ startsWithL ("#".toList) s then
    if startsWithL ("http://".toList) s || startsWithL ("https://".toList) s then
      some s
    else none
  else none

/-- `EPGGenerator.read_epg_sources` (merge.py lines 81-105) on the
config file's lines; `Except.error` is the fatal `ValueError` raised when
no valid source is found. -/
def read_epg_sources (lines : List Str) : Except Unit (List Str) :=
  let sources := lines.foldl lineStep []
  if sources.length < 1 then .error () else .ok (sources.take 8)

/-- `EPGGenerator.run` (merge.py lines 403-429): `false` on a config
error or when `fetch_all_sources` reports no successful source; output
generation is a collaborator and cannot fail in the model. -/
def run (configLines : List Str) (decl comp : List (Option Feed)) : Bool :=
  match read_epg_sources configLines with
  | .error _ => false
  | .ok _ => (runMerge decl comp).2

/-- Offset suffix `+HHMM` / `-HHMM` in seconds. -/
def tzOffSecs (tz : Str) : Option Int :=
  match tz with
  | [] => none
  | sgn :: rest =>
    if (sgn = '+' ∨ sgn = '-') ∧ rest.length = 4 ∧ rest.all Char.isDigit then
      let v : Int := (natOfDigits (rest.take 2)) * 3600 + (natOfDigits (rest.drop 2)) * 60
      some (if sgn = '-' then -v else v)
    else none

/-- The absolute instant denoted by a `"YYYYMMDDHHMMSS zzzzz"` timestamp
string: wall-clock seconds minus the declared offset. -/
def instantSecs (time_str : Str) : Option Int :=
  match splitSp time_str with
  | [tp, tz] =>
    match parse14 (tp.take 14), tzOffSecs tz with
    | some dt, some off => some ((dtSecs dt : Int) - off)
    | _, _ => none
  | _ => none

/-- The canonical-id uniqueness invariant: retained channels carry
pairwise-distinct ids, all of which are registered in `channel_ids`. -/
def ChanInv (st : GenState) : Prop :=
  (st.all_channels.map (fun c => c.id)).Nodup ∧
  ∀ i ∈ st.all_channels.map (fun c => c.id), i ∈ st.channel_ids

/-! ### Concrete fixtures used by individual results -/

def c1FeedA : Feed :=
  Feed.mk [Channel.mk ("100".toList) [("测试".toList)]]
    [Programme.mk ("100".toList) [] [] ("a".toList)]

def c1FeedB : Feed :=
  Feed.mk [Channel.mk ("100".toList) [("测试".toList)]]
    [Programme.mk ("100".toList) [] [] ("b1".toList),
     Programme.mk ("100".toList) [] [] ("b2".toList)]

def c1StW : GenState := { initState with channel_ids := [("100".toList)] }

def c1PsW : List Programme :=
  [Programme.mk ("100".toList) [] [] ("w".toList),
   Programme.mk ("abc".toList) [] [] ("x".toList)]

def c2FeedA : Feed := Feed.mk [Channel.mk ("100".toList) [("测试".toList)]] []

def c2FeedB : Feed := Feed.mk [Channel.mk ("200".toList) [("测试".toList)]] []

def c5St : GenState :=
  { initState with
    channel_ids := [("100".toList)],
    all_channels := [Channel.mk ("100".toList) [("测试".toList)]] }

def c5Prog : Programme :=
  Programme.mk ("100".toList) ("20240101120000 +0000".toList)
    ("20240101130000 +0000".toList) ("t".toList)

def c6Feed : Feed :=
  Feed.mk [Channel.mk ("100".toList) [("测试".toList)]]
    [Programme.mk ("100".toList) ("garbage".toList) ("garbage".toList) ("t".toList)]

def c6StW : GenState := { initState with channel_ids := [("7".toList)] }

def c6ProgW : Programme :=
  Programme.mk ("7".toList) ("badtime".toList) ("badtime".toList) ("w".toList)

def c7Feed : Feed := Feed.mk [] []

def c10Lines : List Str :=
  [("# comment".toList), ("ftp://x".toList),
   ("http://u1".toList), ("http://u2".toList), ("https://u3".toList),
   ("http://u4".toList), ("http://u5".toList), ("http://u6".toList),
   ("http://u7".toList), ("http://u8".toList), ("http://u9".toList),
   ("http://u10".toList)]

def c10Out : List Str :=
  [("http://u1".toList), ("http://u2".toList), ("https://u3".toList),
   ("http://u4".toList), ("http://u5".toList), ("http://u6".toList),
   ("http://u7".toList), ("http://u8".toList)]

/-! ## Results -/

/-- C4 counterexample: the spec's equivalence fails on the code; the
normalizer maps `"NEWTV-4K"` and `"newtv 4k"` to different keys. -/
theorem claim4_counterexample :
    normalize_channel_name ("NEWTV-4K".toList) ≠
      normalize_channel_name ("newtv 4k".toList) := by
  decide

/-- C4 (amended): the normalizer is a pure function; it strips punctuation,
but only the lowercase token `new` is rewritten to `NEW` while all other
letters keep their case, so `"NEWTV-4K"` normalizes to `"NEWTV4K"` and
`"newtv 4k"` to `"NEWtv4k"` — two distinct keys. -/
theorem claim4_theorem :
    normalize_channel_name ("NEWTV-4K".toList) = ("NEWTV4K".toList) ∧
    normalize_channel_name ("newtv 4k".toList) = ("NEWtv4k".toList) ∧
    ("NEWTV4K".toList) ≠ ("NEWtv4k".toList) := by
  decide

/-- C3 (code bug): the channel name `"爱BBC"` matches both a foreign
keyword (`BBC`) and a domestic-protection keyword (`爱`), yet
`process_channels` drops it: the foreign-keyword `continue` fires before
the domestic check, which is an inert `if any(...): pass`. -/
theorem claim3_theorem :
    FOREIGN_KEYWORDS.any (fun kw => containsSub kw ("爱BBC".toList)) = true ∧
    DOMESTIC_SPECIAL.any (fun kw => containsSub kw ("爱BBC".toList)) = true ∧
    (process_channels initState
      (Feed.mk [Channel.mk ("100".toList) [("爱BBC".toList)]] [])).all_channels = [] := by
  decide

/-- C1 counterexample: two feeds contribute 1 and 2 programmes for the
same canonical id `100`; the merged output contains all three programmes
(the poorer feed's entry included), not just the richest feed's list. -/
theorem claim1_counterexample :
    (runMerge [some c1FeedA, some c1FeedB] [some c1FeedA, some c1FeedB]).1.all_programs =
      [Programme.mk ("100".toList) [] [] ("a".toList),
       Programme.mk ("100".toList) [] [] ("b1".toList),
       Programme.mk ("100".toList) [] [] ("b2".toList)] := by
  decide

/-- C2 counterexample: for the same declared feeds, two different
completion orders (both permutations of the declaration order) yield
different retained channels — the fold runs in completion order. -/
theorem claim2_counterexample :
    ([some c2FeedA, some c2FeedB] : List (Option Feed)).Perm
      [some c2FeedB, some c2FeedA] ∧
    (runMerge [some c2FeedA, some c2FeedB] [some c2FeedA, some c2FeedB]).1.all_channels ≠
      (runMerge [some c2FeedA, some c2FeedB] [some c2FeedB, some c2FeedA]).1.all_channels := by
  decide

/-- C5 counterexample: processing a programme of a non-爱 channel adds 8
hours to the wall clock while keeping the `+0000` offset, so the absolute
instant of the output timestamp differs from the input's. -/
theorem claim5_counterexample :
    stepProgram c5St c5Prog =
      .ok { c5St with all_programs :=
        [Programme.mk ("100".toList) ("20240101200000 +0000".toList)
          ("20240101210000 +0000".toList) ("t".toList)] } ∧
    instantSecs ("20240101200000 +0000".toList) ≠
      instantSecs ("20240101120000 +0000".toList) := by
  decide

/-- C6 counterexample: a programme whose `start`/`stop` strings are
unparsable (`"garbage"`) is NOT dropped: it appears in the merged output
with its timestamps unchanged, and the run still succeeds. -/
theorem claim6_counterexample :
    (runMerge [some c6Feed] [some c6Feed]).1.all_programs =
      [Programme.mk ("100".toList) ("garbage".toList) ("garbage".toList) ("t".toList)] ∧
    (runMerge [some c6Feed] [some c6Feed]).2 = true := by
  decide

/-- C7 counterexample: one feed succeeds but contributes zero channels and
zero programmes; the aggregate result is empty, yet the run reports
success — emptiness of the merge result is never checked. -/
theorem claim7_counterexample :
    run [("http://a".toList)] [some c7Feed] [some c7Feed] = true ∧
    (runMerge [some c7Feed] [some c7Feed]).1.all_channels = [] ∧
    (runMerge [some c7Feed] [some c7Feed]).1.all_programs = [] := by
  decide

/-! ## Structural lemmas about the processing steps -/

theorem stepChannel_cases (fp : List Programme) (st : GenState) (ch : Channel) :
    stepChannel fp st ch = st ∨
    ∃ fc nn, fc ∉ st.channel_ids ∧
      stepChannel fp st ch =
        { st with
          channel_ids := st.channel_ids ++ [fc],
          all_channels := st.all_channels ++ [{ ch with id := fc }],
          name_to_final_id := setA st.name_to_final_id nn fc } := by
  rcases hd : ch.displayNames with _ | ⟨n, ns⟩ <;>
    simp only [stepChannel, hd] <;>
    split_ifs with h1 h2 h3 h4 <;>
    first
      | exact Or.inl rfl
      | (push_neg at h4
         exact Or.inr ⟨_, _, h4.1, rfl⟩)

theorem stepChannel_pcm (fp : List Programme) (st : GenState) (ch : Channel) :
    (stepChannel fp st ch).program_channel_map = st.program_channel_map := by
  rcases stepChannel_cases fp st ch with h | ⟨fc, nn, _, h⟩ <;> rw [h]

theorem stepChannel_progs (fp : List Programme) (st : GenState) (ch : Channel) :
    (stepChannel fp st ch).all_programs = st.all_programs := by
  rcases stepChannel_cases fp st ch with h | ⟨fc, nn, _, h⟩ <;> rw [h]

theorem foldChan_pcm (fp : List Programme) (chs : List Channel) (st : GenState) :
    (chs.foldl (stepChannel fp) st).program_channel_map = st.program_channel_map := by
  induction chs generalizing st with
  | nil => rfl
  | cons ch rest ih => rw [List.foldl_cons, ih, stepChannel_pcm]

theorem foldChan_progs (fp : List Programme) (chs : List Channel) (st : GenState) :
    (chs.foldl (stepChannel fp) st).all_programs = st.all_programs := by
  induction chs generalizing st with
  | nil => rfl
  | cons ch rest ih => rw [List.foldl_cons, ih, stepChannel_progs]

theorem adjust_program_time_channel (d h : Int) (p q : Programme)
    (hq : adjust_program_time d h p = .ok q) : q.channel = p.channel := by
  unfold adjust_program_time at hq
  split at hq
  · exact absurd hq (by simp)
  · split at hq
    · exact absurd hq (by simp)
    · cases Except.ok.inj hq
      rfl

theorem transP_channel (st : GenState) (p : Programme) :
    (transP st p).channel = p.channel := by
  by_cases hc : get_channel_name_by_id st.all_channels (stripWs p.channel) = []
  · simp [transP, hc]
  · rcases hadj : adjust_program_time 0
        (hoursFor (get_channel_name_by_id st.all_channels (stripWs p.channel))) p with _ | p2
    · simp [transP, hc, hadj]
    · simp only [transP, hc, if_false, hadj]
      exact adjust_program_time_channel _ _ _ _ hadj

theorem stepProgram_eq (st : GenState) (p : Programme) :
    (keepP st p = false ∧ stepProgram st p = .ok st) ∨
    (keepP st p = true ∧ stepProgram st p = .error ()) ∨
    (keepP st p = true ∧
      stepProgram st p = .ok { st with all_programs := st.all_programs ++ [transP st p] }) := by
  by_cases hk : keepP st p = true
  · by_cases hc : get_channel_name_by_id st.all_channels (stripWs p.channel) = []
    · exact Or.inr (Or.inr ⟨hk, by simp [stepProgram, transP, hk, hc]⟩)
    · rcases hadj : adjust_program_time 0
          (hoursFor (get_channel_name_by_id st.all_channels (stripWs p.channel))) p with _ | p2
      · exact Or.inr (Or.inl ⟨hk, by simp [stepProgram, hk, hc, hadj]⟩)
      · exact Or.inr (Or.inr ⟨hk, by simp [stepProgram, transP, hk, hc, hadj]⟩)
  · exact Or.inl ⟨by simpa using hk, by simp [stepProgram, hk]⟩

theorem stepProgram_fields (st st2 : GenState) (p : Programme)
    (h : stepProgram st p = .ok st2) :
    st2.channel_ids = st.channel_ids ∧ st2.all_channels = st.all_channels ∧
    st2.name_to_final_id = st.name_to_final_id ∧
    st2.program_channel_map = st.program_channel_map := by
  rcases stepProgram_eq st p with ⟨_, he⟩ | ⟨_, he⟩ | ⟨_, he⟩
  · rw [h] at he
    cases Except.ok.inj he
    exact ⟨rfl, rfl, rfl, rfl⟩
  · rw [h] at he
    exact absurd he (by simp)
  · rw [h] at he
    cases Except.ok.inj he
    exact ⟨rfl, rfl, rfl, rfl⟩

theorem process_programs_fields (ps : List Programme) (st : GenState) :
    (process_programs st ps).1.channel_ids = st.channel_ids ∧
    (process_programs st ps).1.all_channels = st.all_channels ∧
    (process_programs st ps).1.name_to_final_id = st.name_to_final_id ∧
    (process_programs st ps).1.program_channel_map = st.program_channel_map := by
  induction ps generalizing st with
  | nil => exact ⟨rfl, rfl, rfl, rfl⟩
  | cons p rest ih =>
    simp only [process_programs]
    rcases hstep : stepProgram st p with e | st2 <;> simp only [hstep]
    · exact ⟨trivial, trivial, trivial, trivial⟩
    · obtain ⟨h1, h2, h3, h4⟩ := ih st2
      obtain ⟨g1, g2, g3, g4⟩ := stepProgram_fields st st2 p hstep
      exact ⟨h1.trans g1, h2.trans g2, h3.trans g3, h4.trans g4⟩

theorem processFeed_pcm (st : GenState) (f : Feed) :
    (processFeed st f).1.program_channel_map = st.program_channel_map := by
  unfold processFeed process_channels
  exact (process_programs_fields f.programmes _).2.2.2.trans
    (foldChan_pcm f.programmes f.channels st)

theorem fetchFold_pcm (comp : List (Option Feed)) (st : GenState) :
    (fetchFold st comp).1.program_channel_map = st.program_channel_map := by
  induction comp generalizing st with
  | nil => rfl
  | cons of rest ih =>
    cases of with
    | none => exact ih st
    | some f =>
      show (fetchFold (processFeed st f).1 rest).1.program_channel_map = _
      exact (ih (processFeed st f).1).trans (processFeed_pcm st f)

theorem stepChannel_inv (fp : List Programme) (st : GenState) (ch : Channel)
    (h : ChanInv st) : ChanInv (stepChannel fp st ch) := by
  rcases stepChannel_cases fp st ch with he | ⟨fc, nn, hfc, he⟩
  · rw [he]; exact h
  · rw [he]
    obtain ⟨hnd, hsub⟩ := h
    unfold ChanInv
    have hmap : ((st.all_channels ++ [{ ch with id := fc }]).map (fun c : Channel => c.id)) =
        st.all_channels.map (fun c : Channel => c.id) ++ [fc] := by simp
    constructor
    · rw [hmap, List.nodup_append]
      refine ⟨hnd, List.nodup_singleton _, fun a ha hb => ?_⟩
      rw [List.mem_singleton] at hb
      subst hb
      exact hfc (hsub a ha)
    · intro i hi
      rw [hmap, List.mem_append] at hi
      rcases hi with hi | hi
      · exact List.mem_append.mpr (Or.inl (hsub i hi))
      · exact List.mem_append.mpr (Or.inr hi)

theorem foldChan_inv (fp : List Programme) (chs : List Channel) (st : GenState)
    (h : ChanInv st) : ChanInv (chs.foldl (stepChannel fp) st) := by
  induction chs generalizing st with
  | nil => exact h
  | cons ch rest ih =>
    rw [List.foldl_cons]
    exact ih _ (stepChannel_inv fp st ch h)

theorem process_programs_inv (ps : List Programme) (st : GenState)
    (h : ChanInv st) : ChanInv (process_programs st ps).1 := by
  obtain ⟨h1, h2, _, _⟩ := process_programs_fields ps st
  unfold ChanInv at h ⊢
  rw [h1, h2]
  exact h

theorem fetchFold_inv (comp : List (Option Feed)) (st : GenState)
    (h : ChanInv st) : ChanInv (fetchFold st comp).1 := by
  induction comp generalizing st with
  | nil => exact h
  | cons of rest ih =>
    cases of with
    | none => exact ih st h
    | some f =>
      show ChanInv (fetchFold (processFeed st f).1 rest).1
      refine ih _ ?_
      unfold processFeed process_channels
      exact process_programs_inv f.programmes _ (foldChan_inv f.programmes f.channels st h)

theorem initState_inv (pcm : List (Str × Str)) :
    ChanInv { initState with program_channel_map := pcm } := by
  constructor
  · exact List.nodup_nil
  · intro i hi
    simp [initState] at hi

theorem stepProgram_digits (st st2 : GenState) (p : Programme)
    (h : stepProgram st p = .ok st2)
    (hall : st.all_programs.all (fun q => isdigitL (stripWs q.channel)) = true) :
    st2.all_programs.all (fun q => isdigitL (stripWs q.channel)) = true := by
  rcases stepProgram_eq st p with ⟨_, he⟩ | ⟨_, he⟩ | ⟨hk, he⟩
  · rw [h] at he
    cases Except.ok.inj he
    exact hall
  · rw [h] at he
    exact absurd he (by simp)
  · rw [h] at he
    cases Except.ok.inj he
    have hdig : isdigitL (stripWs p.channel) = true := by
      unfold keepP at hk
      simp only [Bool.and_eq_true] at hk
      exact hk.1
    simp only [List.all_append, hall, Bool.true_and, List.all_cons, List.all_nil,
      Bool.and_true, transP_channel]
    exact hdig

theorem process_programs_digits (ps : List Programme) (st : GenState)
    (hall : st.all_programs.all (fun q => isdigitL (stripWs q.channel)) = true) :
    (process_programs st ps).1.all_programs.all (fun q => isdigitL (stripWs q.channel)) = true := by
  induction ps generalizing st with
  | nil => exact hall
  | cons p rest ih =>
    simp only [process_programs]
    rcases hstep : stepProgram st p with e | st2 <;> simp only [hstep]
    · exact hall
    · exact ih st2 (stepProgram_digits st st2 p hstep hall)

theorem fetchFold_digits (comp : List (Option Feed)) (st : GenState)
    (hall : st.all_programs.all (fun q => isdigitL (stripWs q.channel)) = true) :
    (fetchFold st comp).1.all_programs.all (fun q => isdigitL (stripWs q.channel)) = true := by
  induction comp generalizing st with
  | nil => exact hall
  | cons of rest ih =>
    cases of with
    | none => exact ih st hall
    | some f =>
      show (fetchFold (processFeed st f).1 rest).1.all_programs.all _ = true
      refine ih _ ?_
      unfold processFeed process_channels
      refine process_programs_digits f.programmes _ ?_
      rw [foldChan_progs]
      exact hall

theorem splitSp_nosp (tz : Str) (h : ' ' ∉ tz) : splitSp tz = [tz] := by
  induction tz with
  | nil => rfl
  | cons c rest ih =>
    have hc : ¬ c = ' ' := fun he => h (he ▸ List.mem_cons_self c rest)
    unfold splitSp
    rw [if_neg hc, ih (fun hm => h (List.mem_cons_of_mem c hm))]

theorem splitSp_append (tp tz : Str) (h : ' ' ∉ tp) :
    splitSp (tp ++ ' ' :: tz) = tp :: splitSp tz := by
  induction tp with
  | nil => simp [splitSp]
  | cons c rest ih =>
    have hc : ¬ c = ' ' := fun he => h (he ▸ List.mem_cons_self c rest)
    rw [List.cons_append]
    unfold splitSp
    rw [if_neg hc, ih (fun hm => h (List.mem_cons_of_mem c hm))]
    simp
    exact splitSp.eq_def tz

theorem adjust_attr_split (d h : Int) (tp tz : Str) (htp : ' ' ∉ tp) (htz : ' ' ∉ tz) :
    adjust_attr d h (tp ++ ' ' :: tz) =
      (if 14 ≤ tp.length then
        match parse14 (tp.take 14) with
        | none => .ok (tp ++ ' ' :: tz)
        | some dt =>
          match dtAddOpt dt d h with
          | none => .ok (tp ++ ' ' :: tz)
          | some dt2 => .ok (render14 dt2 ++ (' ' :: tz))
      else .ok (tp ++ ' ' :: tz)) := by
  unfold adjust_attr
  rw [if_pos ⟨by simp, by simp⟩, splitSp_append tp tz htp, splitSp_nosp tz htz]

theorem adjust_attr_nospace (d h : Int) (s : Str) (hs : ' ' ∉ s) :
    adjust_attr d h s = .ok s := by
  unfold adjust_attr
  rw [if_neg]
  intro hc
  exact hs hc.2

theorem adjust_program_time_nospace (d h : Int) (p : Programme)
    (h3 : ' ' ∉ p.start) (h4 : ' ' ∉ p.stop) :
    adjust_program_time d h p = .ok p := by
  unfold adjust_program_time
  rw [adjust_attr_nospace d h p.start h3, adjust_attr_nospace d h p.stop h4]

theorem foldl_lineStep (lines : List Str) (acc : List Str) :
    lines.foldl lineStep acc = acc ++ lines.filterMap validURL := by
  induction lines generalizing acc with
  | nil => simp
  | cons l rest ih =>
    have hstep : lineStep acc l = acc ++ (validURL l).toList := by
      unfold lineStep validURL
      dsimp only
      split_ifs with h1 h2
      · simp
      · simp
      · simp
    rw [List.foldl_cons, ih, hstep, List.filterMap_cons]
    cases validURL l <;> simp

/-- C1 (amended): no richest-wins selection exists.  When the programme
loop completes without an exception, it appends to the output every
programme whose stripped channel reference is all-digits and already
registered, transformed by the time adjustment, in order — so lists from
different feeds for the same canonical id are concatenated, not selected. -/
theorem claim1_theorem (st : GenState) (ps : List Programme)
    (h : (process_programs st ps).2 = true) :
    (process_programs st ps).1.all_programs =
      st.all_programs ++ (ps.filter (fun p => keepP st p)).map (fun p => transP st p) := by
  induction ps generalizing st with
  | nil => simp [process_programs]
  | cons p rest ih =>
    rcases stepProgram_eq st p with ⟨hk, he⟩ | ⟨hk, he⟩ | ⟨hk, he⟩
    · have hloop : process_programs st (p :: rest) = process_programs st rest := by
        simp only [process_programs, he]
      rw [hloop] at h ⊢
      rw [ih st h]
      simp [List.filter_cons, hk]
    · rw [show process_programs st (p :: rest) = (st, false) from by
        simp only [process_programs, he]] at h
      simp at h
    · have hloop : process_programs st (p :: rest) =
          process_programs { st with all_programs := st.all_programs ++ [transP st p] } rest := by
        simp only [process_programs, he]
      rw [hloop] at h ⊢
      rw [ih _ h]
      have hke : (fun q => keepP { st with all_programs := st.all_programs ++ [transP st p] } q) =
          (fun q => keepP st q) := rfl
      have htr : (fun q => transP { st with all_programs := st.all_programs ++ [transP st p] } q) =
          (fun q => transP st q) := rfl
      rw [hke, htr]
      simp [List.filter_cons, hk]

/-- C1 witness: a concrete loop completing without exception satisfies the
amended statement. -/
theorem claim1_witness :
    (process_programs c1StW c1PsW).2 = true ∧
    (process_programs c1StW c1PsW).1.all_programs =
      c1StW.all_programs ++
        (c1PsW.filter (fun p => keepP c1StW p)).map (fun p => transP c1StW p) :=
  ⟨by decide, claim1_theorem c1StW c1PsW (by decide)⟩

/-- C2 (amended): feed outputs are folded in completion order, so the
retained channels may depend on it (see the counterexample); only the
pre-fetched name-to-numeric-id map is built strictly in declaration order
and is therefore identical for every completion order. -/
theorem claim2_theorem (decl comp : List (Option Feed)) :
    (runMerge decl comp).1.program_channel_map = pre_fetch_program_channels decl := by
  unfold runMerge fetch_all_sources
  exact fetchFold_pcm comp _

/-- C8: the retained channels carry pairwise-distinct canonical ids after
any run, and the id-uniqueness invariant is preserved by every
channel-processing step. -/
theorem claim8_theorem :
    (∀ decl comp : List (Option Feed),
      ((runMerge decl comp).1.all_channels.map (fun c : Channel => c.id)).Nodup) ∧
    (∀ (st : GenState) (f : Feed), ChanInv st → ChanInv (process_channels st f)) := by
  constructor
  · intro decl comp
    have h := fetchFold_inv comp _ (initState_inv (pre_fetch_program_channels decl))
    unfold runMerge fetch_all_sources
    exact h.1
  · intro st f h
    unfold process_channels
    exact foldChan_inv f.programmes f.channels st h

/-- C8 witness: the invariant parts at concrete inputs. -/
theorem claim8_witness :
    ((runMerge [] []).1.all_channels.map (fun c : Channel => c.id)).Nodup ∧
    ChanInv (process_channels initState (Feed.mk [] [])) :=
  ⟨claim8_theorem.1 [] [],
   claim8_theorem.2 initState (Feed.mk [] [])
     ⟨List.nodup_nil, fun i hi => by simp [initState] at hi⟩⟩

/-- C9: every programme in the merged output has an all-digit (stripped)
channel reference; programmes with non-numeric channel references are
excluded even when a retained channel carries that id. -/
theorem claim9_theorem (decl comp : List (Option Feed)) :
    (runMerge decl comp).1.all_programs.all
      (fun p => isdigitL (stripWs p.channel)) = true := by
  unfold runMerge fetch_all_sources
  exact fetchFold_digits comp _ rfl

/-- C10: whenever `read_epg_sources` succeeds, the returned source list is
exactly the first 8 valid URL lines of the config; later valid lines are
silently ignored. -/
theorem claim10_theorem (lines out : List Str)
    (h : read_epg_sources lines = .ok out) :
    out = (lines.filterMap validURL).take 8 ∧ out.length ≤ 8 := by
  unfold read_epg_sources at h
  dsimp only at h
  split at h
  · exact absurd h (by simp)
  · cases Except.ok.inj h
    constructor
    · rw [foldl_lineStep]
      simp
    · simp [List.length_take]

/-- C10 witness: a config with ten valid URL lines yields the first eight. -/
theorem claim10_witness :
    read_epg_sources c10Lines = .ok c10Out ∧
    (c10Out = (c10Lines.filterMap validURL).take 8 ∧ c10Out.length ≤ 8) :=
  ⟨by decide, claim10_theorem c10Lines c10Out (by decide)⟩

/-- C5 (amended): the time adjustment never converts between offsets: for
any `"wall offset"` timestamp, a successful adjustment returns a string
with the SAME trailing offset (only the wall-clock field may change —
shifted by the configured delta when it parses, as the concrete second
conjunct shows); the absolute instant is therefore shifted, not
preserved. -/
theorem claim5_theorem :
    (∀ (d h : Int) (tp tz : Str), ' ' ∉ tp → ' ' ∉ tz →
      ∃ wall, adjust_attr d h (tp ++ ' ' :: tz) = .ok (wall ++ ' ' :: tz)) ∧
    adjust_attr 0 8 ("20240101120000 +0000".toList) =
      .ok ("20240101200000 +0000".toList) := by
  constructor
  · intro d h tp tz htp htz
    rw [adjust_attr_split d h tp tz htp htz]
    by_cases hlen : 14 ≤ tp.length
    · rw [if_pos hlen]
      rcases hp : parse14 (tp.take 14) with _ | dt
      · simp only [hp]
        exact ⟨tp, rfl⟩
      · simp only [hp]
        rcases ha : dtAddOpt dt d h with _ | dt2 <;> simp only [ha]
        · exact ⟨tp, rfl⟩
        · exact ⟨render14 dt2, rfl⟩
    · rw [if_neg hlen]
      exact ⟨tp, rfl⟩
  · decide

/-- C5 witness: the universal part applied at a concrete timestamp. -/
theorem claim5_witness :
    ∃ wall, adjust_attr 0 8 (("20240101120000".toList) ++ ' ' :: ("+0000".toList)) =
      .ok (wall ++ ' ' :: ("+0000".toList)) :=
  claim5_theorem.1 0 8 ("20240101120000".toList) ("+0000".toList) (by decide) (by decide)

/-- C6 (amended): a retained programme whose start/stop strings are
unparsable (here: contain no space) is NOT dropped — it is appended to the
output with both timestamps unchanged, and the loop continues without an
exception. -/
theorem claim6_theorem (st : GenState) (p : Programme)
    (h1 : isdigitL (stripWs p.channel) = true)
    (h2 : stripWs p.channel ∈ st.channel_ids)
    (h3 : ' ' ∉ p.start) (h4 : ' ' ∉ p.stop) :
    stepProgram st p = .ok { st with all_programs := st.all_programs ++ [p] } := by
  have hk : keepP st p = true := by
    unfold keepP
    rw [h1]
    simp [h2]
  by_cases hc : get_channel_name_by_id st.all_channels (stripWs p.channel) = []
  · simp [stepProgram, hk, hc]
  · simp [stepProgram, hk, hc, adjust_program_time_nospace, h3, h4]

/-- C6 witness: the amended statement at a concrete state and programme. -/
theorem claim6_witness :
    isdigitL (stripWs c6ProgW.channel) = true ∧
    stripWs c6ProgW.channel ∈ c6StW.channel_ids ∧
    ' ' ∉ c6ProgW.start ∧ ' ' ∉ c6ProgW.stop ∧
    stepProgram c6StW c6ProgW =
      .ok { c6StW with all_programs := c6StW.all_programs ++ [c6ProgW] } :=
  ⟨by decide, by decide, by decide, by decide,
   claim6_theorem c6StW c6ProgW (by decide) (by decide) (by decide) (by decide)⟩

/-- C7 (amended): a failed feed contributes nothing and never aborts the
fold, and the run reports failure when every feed failed; but emptiness of
the aggregate result is never checked (see the counterexample), so the
failure condition is exactly "no source was processed successfully" or a
config error. -/
theorem claim7_theorem :
    (∀ (st : GenState) (comp : List (Option Feed)),
      fetchFold st (none :: comp) = fetchFold st comp) ∧
    (∀ (cfg : List Str) (decl comp : List (Option Feed)),
      (∀ f ∈ comp, f = (none : Option Feed)) → run cfg decl comp = false) := by
  have hcount : ∀ (cs : List (Option Feed)) (st : GenState),
      (∀ f ∈ cs, f = none) → (fetchFold st cs).2 = 0 := by
    intro cs
    induction cs with
    | nil => intro st _; rfl
    | cons c rest ih =>
      intro st hforall
      have hc := hforall c (List.mem_cons_self c rest)
      subst hc
      exact ih st (fun f hf => hforall f (List.mem_cons_of_mem _ hf))
  constructor
  · intro st comp
    rfl
  · intro cfg decl comp hall
    unfold run
    rcases hr : read_epg_sources cfg with e | srcs <;> simp only [hr]
    unfold runMerge fetch_all_sources
    have h0 := hcount comp
      { initState with program_channel_map := pre_fetch_program_channels decl } hall
    show (if (fetchFold { initState with
        program_channel_map := pre_fetch_program_channels decl } comp).2 = 0
      then false else true) = false
    rw [h0]
    rfl

/-- C7 witness: the two parts at concrete inputs. -/
theorem claim7_witness :
    fetchFold initState [(none : Option Feed)] = fetchFold initState [] ∧
    run [] [] [(none : Option Feed)] = false :=
  ⟨claim7_theorem.1 initState [], claim7_theorem.2 [] [] [none] (by simp)⟩
